import Mathlib

/-!
Verification of the `media_stack` media-player component.

This file shallowly embeds the Python source of
`custom_components/media_stack/media_player.py` (the variant exercised by the
repository's test-suite) and proves or refutes the specification claims about
it.  Devices are modelled by their Home-Assistant state snapshots, the wiring
configuration by an association list, and the recursive source resolver
`_get_root_sources` by a fuel-indexed function together with a proof that the
fuel never runs out (the termination argument of the recursion).
-/

namespace MediaStack

/-- Snapshot attributes of one media-player entity, as read by the component:
`ATTR_INPUT_SOURCE` (`source`, may be absent) and `ATTR_INPUT_SOURCE_LIST`
(`source_list`, absent is read back as the empty list by
`attributes.get(ATTR_INPUT_SOURCE_LIST, [])`). -/
structure Attrs where
  source : Option String
  source_list : List String
deriving DecidableEq, Repr

/-- One entity's state snapshot as stored in the Home-Assistant state machine:
entity id, status string (`State.state`), display name (`State.name`) and the
attributes above. -/
structure HState where
  entity_id : String
  state : String
  name : String
  attributes : Attrs
deriving DecidableEq, Repr

/-- The component's environment: the configured wiring map
(`CONF_MAPPING`, a dict `entity_id -> (source name -> entity_id)`, modelled as
an insertion-ordered association list) and the state machine contents
(`hass.states`, one snapshot per entity). -/
structure Env where
  mapping : List (String × List (String × String))
  states : List HState
deriving DecidableEq, Repr

/-- Python `dict.get`: first binding of the key in an association list. -/
def assocFind {α : Type} (l : List (String × α)) (k : String) : Option α :=
  (l.find? (fun kv => kv.1 == k)).map (fun kv => kv.2)

/-- `hass.states.get(entity_id)`. -/
def lookupState (env : Env) (entity_id : String) : Option HState :=
  env.states.find? (fun st => st.entity_id == entity_id)

/-- `mappings.get(state.entity_id, {})`. -/
def mappingFor (env : Env) (entity_id : String) : List (String × String) :=
  (assocFind env.mapping entity_id).getD []

/-- `OFF_STATES = [STATE_OFF, STATE_STANDBY, STATE_UNAVAILABLE]`. -/
def OFF_STATES : List String := ["off", "standby", "unavailable"]

/-- `_get_sources`: the advertised source list, with the current source
appended when it is set (truthy) and not already listed. -/
def get_sources (a : Attrs) : List String :=
  let sources := a.source_list
  match a.source with
  | some s => if s ≠ "" && !(sources.contains s) then sources ++ [s] else sources
  | none => sources

/-- The `SourceInfo` dataclass: a resolved source entry carrying a back
reference (`parent`, optional) to the entry it was reached through.  The
optional parent is encoded by two constructors so that recursion over the
ancestor chain is structural. -/
inductive SourceInfo : Type where
  | root (entity_name : String) (entity_id : String)
      (source : Option String) (active : Bool)
  | child (parent : SourceInfo) (entity_name : String) (entity_id : String)
      (source : Option String) (active : Bool)
deriving DecidableEq, Repr

/-- Build a `SourceInfo` from its `parent: Optional[SourceInfo]` field. -/
def SourceInfo.mk (parent : Option SourceInfo) (entity_name : String)
    (entity_id : String) (source : Option String) (active : Bool) : SourceInfo :=
  match parent with
  | none => .root entity_name entity_id source active
  | some p => .child p entity_name entity_id source active

def SourceInfo.parent : SourceInfo → Option SourceInfo
  | .root _ _ _ _ => none
  | .child p _ _ _ _ => some p

def SourceInfo.entity_name : SourceInfo → String
  | .root n _ _ _ => n
  | .child _ n _ _ _ => n

def SourceInfo.entity_id : SourceInfo → String
  | .root _ e _ _ => e
  | .child _ _ e _ _ => e

def SourceInfo.source : SourceInfo → Option String
  | .root _ _ s _ => s
  | .child _ _ _ s _ => s

def SourceInfo.active : SourceInfo → Bool
  | .root _ _ _ a => a
  | .child _ _ _ _ a => a

/-- `SourceInfo.name`: qualified label, `"<entity_name>: <source>"` when a
(truthy) source is attached, else just the entity name. -/
def SourceInfo.name (i : SourceInfo) : String :=
  match i.source with
  | some s => if s = "" then i.entity_name else i.entity_name ++ ": " ++ s
  | none => i.entity_name

/-- `_get_parents(some info)`: the entry followed by all entries above it. -/
def parentsFrom : SourceInfo → List SourceInfo
  | .root n e s a => [.root n e s a]
  | .child p n e s a => .child p n e s a :: parentsFrom p

/-- `_get_parents`: the entry followed by all entries above it (empty for a
`None` start). -/
def getParents : Option SourceInfo → List SourceInfo
  | none => []
  | some i => parentsFrom i

/-- Entity ids of the ancestor chain
(`set(x.entity_id for x in _get_parents(parent))`). -/
def chainIds (parent : Option SourceInfo) : List String :=
  (getParents parent).map (fun x => x.entity_id)

/-- `parent is None or parent.active`. -/
def parentActiveB : Option SourceInfo → Bool
  | none => true
  | some p => p.active

/-- `_get_root_sources`, indexed by fuel.  Each unfolding performs exactly the
body of the Python generator; the fuel only bounds the recursion depth and is
shown (`resolveFuel_stable`) to be irrelevant once it exceeds the termination
measure of the recursion. -/
def resolveFuel : Nat → Env → HState → Option SourceInfo → List SourceInfo
  | 0, _, _, _ => []
  | Nat.succ n, env, state, parent =>
    let parents := chainIds parent
    let mapping := mappingFor env state.entity_id
    let current := state.attributes.source
    let sources := get_sources state.attributes
    let active := parentActiveB parent
    if sources.isEmpty then
      [SourceInfo.mk parent state.name state.entity_id current active]
    else
      sources.flatMap (fun source =>
        let info := SourceInfo.mk parent state.name state.entity_id (some source)
          (active && (current == some source))
        match assocFind mapping source with
        | none => [info]
        | some target =>
          if target = "" then [info]
          else if parents.contains target then [info]
          else
            match lookupState env target with
            | none => [info]
            | some childState => resolveFuel n env childState (some info))

/-- Entity ids known to the state machine. -/
def envDom (env : Env) : Finset String :=
  (env.states.map (fun st => st.entity_id)).toFinset

/-- Termination measure of `_get_root_sources`: twice the number of known
entities not yet on the ancestor chain, plus one when the current entity does
not itself shrink that set. -/
def resolveMeasure (env : Env) (state : HState) (parent : Option SourceInfo) : Nat :=
  2 * ((envDom env) \ (chainIds parent).toFinset).card +
    (if state.entity_id ∈ (envDom env) \ (chainIds parent).toFinset then 0 else 1)

/-- Fuel that always suffices, whatever the ancestor chain. -/
def resolveBound (env : Env) : Nat :=
  2 * (envDom env).card + 2

/-- `_get_root_sources` itself: the fuel-indexed body run with sufficient
fuel. -/
def getRootSources (env : Env) (state : HState) (parent : Option SourceInfo) :
    List SourceInfo :=
  resolveFuel (resolveBound env) env state parent

/-- `MediaStack._sink_entity`, first loop: the first configured entity whose
snapshot exists and whose status is not in `OFF_STATES`. -/
def sinkLoop (env : Env) : List (String × List (String × String)) → Option HState
  | [] => none
  | (k, _) :: rest =>
    match lookupState env k with
    | some st => if !(OFF_STATES.contains st.state) then some st else sinkLoop env rest
    | none => sinkLoop env rest

/-- `MediaStack._sink_entity`: first live configured entity, else the first
configured entity's snapshot (possibly absent), else none. -/
def sink_entity (env : Env) : Option HState :=
  match sinkLoop env env.mapping with
  | some st => some st
  | none =>
    match env.mapping with
    | [] => none
    | (k, _) :: _ => lookupState env k

/-- `MediaStack._sources` as rebuilt by `async_update`:
`list(_get_root_sources(hass, mapping, self._sink_entity, None))` (the
generator returns immediately when the sink state is `None`). -/
def stackSources (env : Env) : List SourceInfo :=
  match sink_entity env with
  | none => []
  | some st => getRootSources env st none

/-- `MediaStack._source_entity`: snapshot of the first active resolved entry
(`next((x.entity_id for x in self._sources if x.active), None)`, then a falsy
check on the id before the state lookup). -/
def source_entity (env : Env) : Option HState :=
  match (stackSources env).find? (fun x => x.active) with
  | some info => if info.entity_id = "" then none else lookupState env info.entity_id
  | none => none

/-- `MediaStack.state`: the composite status. -/
def compositeState (env : Env) : String :=
  match sink_entity env with
  | none => "standby"
  | some sk =>
    if OFF_STATES.contains sk.state then "standby"
    else
      match source_entity env with
      | none => sk.state
      | some se => if OFF_STATES.contains se.state then "standby" else se.state

/-- `MediaStack.source_list`: `list(sorted([x.name for x in self._sources]))`. -/
def compositeSourceList (env : Env) : List String :=
  ((stackSources env).map SourceInfo.name).mergeSort (fun a b => a ≤ b)

/-- All nodes of the resolved tree: the flattened resolver output together
with every ancestor reachable through the `parent` back references. -/
def treeNodes (env : Env) : List SourceInfo :=
  (stackSources env).flatMap (fun i => getParents (some i))

/-- A service command issued to an underlying entity. -/
inductive Cmd : Type where
  | turnOn (entity_id : String)
  | selectCmd (entity_id : String) (source : Option String)
deriving DecidableEq, Repr

/-- `_switch_source(hass, entity_id, source)`: reads the live snapshot
(raising when it is absent, as `state.state` would on `None`), issues
`turn_on` when the status is exactly `"off"`, then `select_source` when the
live current source differs. -/
def switch_source (env : Env) (entity_id : String) (source : Option String) :
    Except String (List Cmd) :=
  match lookupState env entity_id with
  | none => Except.error "AttributeError"
  | some st =>
    Except.ok
      ((if st.state == "off" then [Cmd.turnOn entity_id] else []) ++
       (if st.attributes.source != source then [Cmd.selectCmd entity_id source] else []))

/-- The commands one resolved entry contributes, when its snapshot exists. -/
def blockOf (env : Env) (x : SourceInfo) : List Cmd :=
  match lookupState env x.entity_id with
  | none => []
  | some st =>
    (if st.state == "off" then [Cmd.turnOn x.entity_id] else []) ++
    (if st.attributes.source != x.source then [Cmd.selectCmd x.entity_id x.source] else [])

/-- The commands of `_switch_source` over a list of entries, concatenated in
the order `asyncio.gather` creates the coroutines. -/
def collectSwitches (env : Env) : List SourceInfo → Except String (List Cmd)
  | [] => Except.ok []
  | x :: rest =>
    match switch_source env x.entity_id x.source with
    | Except.error e => Except.error e
    | Except.ok cmds =>
      match collectSwitches env rest with
      | Except.error e => Except.error e
      | Except.ok more => Except.ok (cmds ++ more)

/-- `MediaStack.async_select_source`: find the entry whose qualified label
matches (`KeyError` otherwise), then gather `_switch_source` over
`_get_parents(info)` — the entry itself followed by its ancestors, i.e. the
chain in target-to-root order, every condition read against the pre-call
snapshot set. -/
def selectSourceCmds (env : Env) (source : String) : Except String (List Cmd) :=
  match (stackSources env).find? (fun x => x.name == source) with
  | none => Except.error ("Unable to find " ++ source)
  | some info => collectSwitches env (getParents (some info))

/-- The entity a command is addressed to. -/
def cmdEntity : Cmd → String
  | Cmd.turnOn e => e
  | Cmd.selectCmd e _ => e

/-- Modelled from the spec: the reaction of one device snapshot to a
completed command — after `turn_on` its status reads `"on"`, after
`select_source` its current source reads the selected one; other devices'
snapshots are untouched. -/
def updCmd (c : Cmd) (st : HState) : HState :=
  match c with
  | Cmd.turnOn e =>
    if st.entity_id == e then ⟨st.entity_id, "on", st.name, st.attributes⟩ else st
  | Cmd.selectCmd e s =>
    if st.entity_id == e then
      ⟨st.entity_id, st.state, st.name, ⟨s, st.attributes.source_list⟩⟩
    else st

/-- Modelled from the spec: the reaction of an underlying device (an external
collaborator, §6 `callCommand`) to a completed command. -/
def applyCmd (env : Env) (c : Cmd) : Env :=
  ⟨env.mapping, env.states.map (updCmd c)⟩

/-- Modelled from the spec: the snapshot set after a batch of commands has
completed. -/
def applyCmds (env : Env) (cmds : List Cmd) : Env :=
  cmds.foldl applyCmd env

/-- The environment after a `select_source` service call: command effects
applied on success, unchanged when the call raised before issuing anything. -/
def selectSourceRun (env : Env) (source : String) : Env :=
  match selectSourceCmds env source with
  | Except.ok cmds => applyCmds env cmds
  | Except.error _ => env

/-- The `(entity, incoming source)` pairs of an entry's chain. -/
def chainPairs (info : SourceInfo) : List (String × Option String) :=
  (getParents (some info)).map (fun x => (x.entity_id, x.source))

section SpecSide

/-- Following claim C1's words: active iff (root or parent active) and the
device's status is not in the off-set and, for non-root entries, the parent
device's currently selected source equals the source through which the entry
was reached. -/
def claimC1Active (env : Env) (info : SourceInfo) : Bool :=
  parentActiveB info.parent &&
  ((lookupState env info.entity_id).elim false (fun st => !(OFF_STATES.contains st.state))) &&
  (match info.parent with
   | none => true
   | some p => (lookupState env p.entity_id).elim false
       (fun pst => pst.attributes.source == p.source))

/-- Following claim C4's words: the first sink candidate, in insertion order,
whose snapshot exists and whose status is not in {off, standby, unavailable,
idle}; else the first configured candidate; none for an empty map. -/
def claimSinkEntity (env : Env) : Option HState :=
  match env.mapping.find? (fun kv =>
      (lookupState env kv.1).elim false
        (fun st => !(["off", "standby", "unavailable", "idle"].contains st.state))) with
  | some kv => lookupState env kv.1
  | none =>
    match env.mapping with
    | [] => none
    | (k, _) :: _ => lookupState env k

/-- Claim C4 amended: the same procedure with the component's actual off-set
`OFF_STATES` (no `idle`). -/
def specSinkEntity (env : Env) : Option HState :=
  match env.mapping.find? (fun kv =>
      (lookupState env kv.1).elim false (fun st => !(OFF_STATES.contains st.state))) with
  | some kv => lookupState env kv.1
  | none =>
    match env.mapping with
    | [] => none
    | (k, _) :: _ => lookupState env k

/-- Following claim C6's words: hops processed strictly sequentially in
root-to-target order, each hop's conditions read against the state left by
the previous hops' completed commands. -/
def claimSelectSeq (env : Env) (source : String) : Except String (List Cmd) :=
  match (stackSources env).find? (fun x => x.name == source) with
  | none => Except.error ("Unable to find " ++ source)
  | some info =>
    Except.ok
      (((getParents (some info)).reverse.foldl
        (fun (acc : Env × List Cmd) x =>
          let b := blockOf acc.1 x
          (applyCmds acc.1 b, acc.2 ++ b))
        (env, [])).2)

/-- Following claim C5's words: standby when the sink is missing or off;
else the sink's own status when no active entry exists; else standby when the
active entry's device status is in the off-set; else that status.  (The
device of an active entry always has a snapshot, so the inner fallback branch
is unreachable.) -/
def claimCompositeState (env : Env) : String :=
  match sink_entity env with
  | none => "standby"
  | some sk =>
    if OFF_STATES.contains sk.state then "standby"
    else
      match (stackSources env).find? (fun x => x.active) with
      | none => sk.state
      | some info =>
        match lookupState env info.entity_id with
        | none => "standby"
        | some st => if OFF_STATES.contains st.state then "standby" else st.state

end SpecSide

section ConcreteEnvironments

/-- One device, powered off, with a duplicate-free source list and a selected
current source; configured as the only sink candidate. -/
def envC1a : Env := ⟨[("d", [])], [⟨"d", "off", "d", ⟨some "X", ["X", "Y"]⟩⟩]⟩

/-- As `envC1a` but powered on. -/
def envC1b : Env := ⟨[("d", [])], [⟨"d", "on", "d", ⟨some "X", ["X", "Y"]⟩⟩]⟩

/-- One powered-on device whose advertised source list repeats its selected
source. -/
def envC3 : Env := ⟨[("d", [])], [⟨"d", "on", "d", ⟨some "A", ["A", "A"]⟩⟩]⟩

/-- Two sink candidates: the first idle, the second playing. -/
def envC4 : Env :=
  ⟨[("a", []), ("b", [])],
   [⟨"a", "idle", "a", ⟨none, []⟩⟩, ⟨"b", "on", "b", ⟨none, []⟩⟩]⟩

/-- A sink on a foreign source feeding a powered-off terminal device. -/
def envC6 : Env :=
  ⟨[("s", [("A", "x")])],
   [⟨"s", "on", "s", ⟨some "B", ["A"]⟩⟩, ⟨"x", "off", "x", ⟨none, []⟩⟩]⟩

/-- Two interconnected sink candidates (the first powered off) both feeding a
terminal device `x`; switching to `x` powers the first candidate on and makes
it the sink of the refreshed tree, rerouting `x`. -/
def envC7 : Env :=
  ⟨[("s1", [("C", "s2"), ("Q", "x")]), ("s2", [("B", "s1"), ("A", "x")])],
   [⟨"s1", "off", "s1", ⟨none, ["C", "Q"]⟩⟩,
    ⟨"s2", "on", "s2", ⟨some "B", ["B", "A"]⟩⟩,
    ⟨"x", "on", "x", ⟨none, []⟩⟩]⟩

/-- A sink whose selected source feeds a live terminal device, so the sink's
own entry is traversed rather than listed. -/
def envC9 : Env :=
  ⟨[("s", [("A", "x")])],
   [⟨"s", "on", "s", ⟨some "A", ["A"]⟩⟩, ⟨"x", "on", "x", ⟨none, []⟩⟩]⟩

/-- A resolved entry is anchored: its device has a snapshot under its id, the
display name was copied from it, and its `active` flag is the parent's
activity conjoined with that snapshot's current source matching the entry's
source. -/
def anchoredEntry (env : Env) (info : SourceInfo) : Prop :=
  ∃ st', lookupState env info.entity_id = some st' ∧
    info.entity_name = st'.name ∧
    info.active = (parentActiveB info.parent && (st'.attributes.source == info.source))

/-- An entry whose wired target was actually recursed into: its source maps
to a present, non-falsy target that is not on its ancestor chain. -/
def recursedOK (env : Env) (x : SourceInfo) : Prop :=
  ∃ s target childSt, x.source = some s ∧
    assocFind (mappingFor env x.entity_id) s = some target ∧
    target ≠ "" ∧ (chainIds x.parent).contains target = false ∧
    lookupState env target = some childSt

/-- The spec's cycle scenario: `stereo` on `DISPLAY` wired to `tv`, `tv` on
`HDMI 1` wired back to `stereo`. -/
def envCyc : Env :=
  ⟨[("stereo", [("DISPLAY", "tv")]), ("tv", [("HDMI 1", "stereo")])],
   [⟨"stereo", "on", "stereo", ⟨some "DISPLAY", ["DISPLAY"]⟩⟩,
    ⟨"tv", "on", "tv", ⟨some "HDMI 1", ["HDMI 1"]⟩⟩]⟩

/-- The state of `stereo` in `envCyc` (its selected sink). -/
def stCyc : HState := ⟨"stereo", "on", "stereo", ⟨some "DISPLAY", ["DISPLAY"]⟩⟩

/-- The state of `tv` in `envCyc`. -/
def tvSt : HState := ⟨"tv", "on", "tv", ⟨some "HDMI 1", ["HDMI 1"]⟩⟩

/-- The root entry of `envCyc`'s resolution: `stereo` on its `DISPLAY`
source. -/
def stereoInfo : SourceInfo := SourceInfo.mk none "stereo" "stereo" (some "DISPLAY") true

/-- The cyclic edge's entry in `envCyc`: `tv`'s `HDMI 1`, wired back to
`stereo`. -/
def cycLeaf : SourceInfo :=
  SourceInfo.mk (some stereoInfo) tvSt.name tvSt.entity_id (some "HDMI 1")
    (parentActiveB (some stereoInfo) && (tvSt.attributes.source == some "HDMI 1"))

/-- A sink whose unselected source `A` feeds a live terminal device `x`,
used to exercise an idempotent re-switch. -/
def envC7b : Env :=
  ⟨[("s", [("A", "x")])],
   [⟨"s", "on", "s", ⟨some "B", ["A", "B"]⟩⟩, ⟨"x", "on", "x", ⟨none, []⟩⟩]⟩

end ConcreteEnvironments

/-- C1, counterexample: the resolver's `active` flag disagrees with the
claimed formula.  In `envC1a` the only sink candidate is powered off, yet its
entry for the selected source `X` is marked active (no power-status
condition); in `envC1b` the device is on and the claimed formula (which for a
root entry has no current-source condition) marks the entry for the
unselected source `Y` active while the resolver does not. -/
theorem c1_counterexample :
    (¬ ∀ info ∈ stackSources envC1a, info.active = claimC1Active envC1a info) ∧
    (¬ ∀ info ∈ stackSources envC1b, info.active = claimC1Active envC1b info) := by
  decide

/-- C3, counterexample: with a duplicated advertised source name, two
resolved entries are active at once, so the flattened resolved source list
does not have at most one active element. -/
theorem c3_counterexample :
    ¬ ((stackSources envC3).countP (fun i => i.active) ≤ 1) := by
  decide

/-- C4, counterexample: a sink candidate in state `idle` is selected by the
component (its off-set does not contain `idle`), while the claimed selection
procedure skips it for the next live candidate. -/
theorem c4_counterexample :
    sink_entity envC4 = some ⟨"a", "idle", "a", ⟨none, []⟩⟩ ∧
    claimSinkEntity envC4 = some ⟨"b", "on", "b", ⟨none, []⟩⟩ := by
  decide

/-- C6, counterexample: the switch commands are gathered over the chain in
target-to-root creation order, not issued in the claimed root-to-target
sequential order. -/
theorem c6_counterexample :
    selectSourceCmds envC6 "x" =
      Except.ok [Cmd.turnOn "x", Cmd.selectCmd "s" (some "A")] ∧
    claimSelectSeq envC6 "x" =
      Except.ok [Cmd.selectCmd "s" (some "A"), Cmd.turnOn "x"] ∧
    ([Cmd.turnOn "x", Cmd.selectCmd "s" (some "A")] : List Cmd) ≠
      [Cmd.selectCmd "s" (some "A"), Cmd.turnOn "x"] :=
  ⟨rfl, rfl, by decide⟩

/-- C7, counterexample: the first switch to `x` succeeds (powering `s1` on
and selecting its source `Q`), no external change intervenes, yet the second
switch to the same target issues two further select-source commands: the
newly powered `s1` becomes the sink of the refreshed tree and the target
label now resolves through a different chain. -/
theorem c7_counterexample :
    selectSourceCmds envC7 "x" =
      Except.ok [Cmd.turnOn "s1", Cmd.selectCmd "s1" (some "Q")] ∧
    selectSourceCmds (selectSourceRun envC7 "x") "x" =
      Except.ok [Cmd.selectCmd "s2" (some "A"), Cmd.selectCmd "s1" (some "C")] :=
  ⟨rfl, rfl⟩

/-- C9, counterexample: the sink's entry for its selected source `A` is a
node of the resolved tree (the ancestor of the terminal leaf `x`), but its
qualified label `"s: A"` is not in the composite source list, which only
lists the flattened leaves. -/
theorem c9_counterexample :
    SourceInfo.root "s" "s" (some "A") true ∈ treeNodes envC9 ∧
    (SourceInfo.root "s" "s" (some "A") true).name = "s: A" ∧
    "s: A" ∉ compositeSourceList envC9 := by
  refine ⟨by decide, by decide, fun h => ?_⟩
  rw [compositeSourceList] at h
  exact absurd ((List.mergeSort_perm _ _).subset h) (by decide)

/-- C10: the composite status is never the literal `"off"` — off-equivalent
situations are reported as `"standby"`, and statuses taken verbatim from the
sink or the active entry's device are only taken when not in `OFF_STATES`
(which contains `"off"`).  Hence `state_attributes`' `None` branch, guarded
by the composite status being `"off"`, can never be taken. -/
theorem c10_never_off (env : Env) : compositeState env ≠ "off" := by
  unfold compositeState
  split
  · decide
  next sk _ =>
    split
    · decide
    next h1 =>
      split
      · intro he
        exact h1 (by rw [he]; decide)
      next se _ =>
        split
        · decide
        next h2 =>
          intro he
          exact h2 (by rw [he]; decide)

/-- C8: selecting a qualified label absent from the resolved source list
raises `KeyError("Unable to find <label>")` before any command is gathered,
issuing nothing and leaving every device state unchanged. -/
theorem c8_unknown_target (env : Env) (t : String)
    (h : (stackSources env).find? (fun x => x.name == t) = none) :
    selectSourceCmds env t = Except.error ("Unable to find " ++ t) ∧
    selectSourceRun env t = env := by
  have h1 : selectSourceCmds env t = Except.error ("Unable to find " ++ t) := by
    unfold selectSourceCmds
    rw [h]
  exact ⟨h1, by unfold selectSourceRun; rw [h1]⟩

/-- Witness for C8 at a concrete environment and an unknown label. -/
theorem c8_unknown_target_witness :
    selectSourceCmds envC9 "stereo: TAPE" =
      Except.error ("Unable to find " ++ "stereo: TAPE") ∧
    selectSourceRun envC9 "stereo: TAPE" = envC9 :=
  c8_unknown_target envC9 "stereo: TAPE" (by decide)

/-- The first-candidate loop of `_sink_entity` agrees with a `find?` over the
candidates. -/
theorem sinkLoop_eq_find (env : Env) (l : List (String × List (String × String))) :
    sinkLoop env l =
      match l.find? (fun kv => (lookupState env kv.1).elim false
          (fun st => !(OFF_STATES.contains st.state))) with
      | some kv => lookupState env kv.1
      | none => none := by
  induction l with
  | nil => rfl
  | cons kv rest ih =>
    cases hlk : lookupState env kv.1 with
    | none =>
      rw [List.find?_cons_of_neg _ (by simp [hlk])]
      simpa [sinkLoop, hlk] using ih
    | some st =>
      cases hoff : OFF_STATES.contains st.state with
      | true =>
        have hoff' : st.state ∈ OFF_STATES := by simpa using hoff
        rw [List.find?_cons_of_neg _ (by simp [hlk, hoff'])]
        simpa [sinkLoop, hlk, hoff'] using ih
      | false =>
        have hoff' : st.state ∉ OFF_STATES := by simpa using hoff
        rw [List.find?_cons_of_pos _ (by simp [hlk, hoff'])]
        simp [sinkLoop, hlk, hoff']

/-- C4 amended: the sink selector returns the first configured candidate, in
insertion order, whose snapshot exists and whose status is not in
`OFF_STATES` = {off, standby, unavailable} (`idle` does not disqualify); if
none qualifies it returns the first configured candidate's snapshot (even if
that device is off, possibly absent), and none when the map is empty. -/
theorem c4_sink_selector (env : Env) : sink_entity env = specSinkEntity env := by
  unfold sink_entity specSinkEntity
  rw [sinkLoop_eq_find]
  cases hf : env.mapping.find? (fun kv => (lookupState env kv.1).elim false
      (fun st => !(OFF_STATES.contains st.state))) with
  | none => rfl
  | some kv =>
    have hp := List.find?_some hf
    cases hlk : lookupState env kv.1 with
    | none => rw [hlk] at hp; simp at hp
    | some st => simp [hlk]

section Helpers

theorem mk_parent (p : Option SourceInfo) (n e : String) (s : Option String)
    (a : Bool) : (SourceInfo.mk p n e s a).parent = p := by
  cases p <;> rfl

theorem mk_entity_name (p : Option SourceInfo) (n e : String) (s : Option String)
    (a : Bool) : (SourceInfo.mk p n e s a).entity_name = n := by
  cases p <;> rfl

theorem mk_entity_id (p : Option SourceInfo) (n e : String) (s : Option String)
    (a : Bool) : (SourceInfo.mk p n e s a).entity_id = e := by
  cases p <;> rfl

theorem mk_source (p : Option SourceInfo) (n e : String) (s : Option String)
    (a : Bool) : (SourceInfo.mk p n e s a).source = s := by
  cases p <;> rfl

theorem mk_active (p : Option SourceInfo) (n e : String) (s : Option String)
    (a : Bool) : (SourceInfo.mk p n e s a).active = a := by
  cases p <;> rfl

theorem parentsFrom_cons (x : SourceInfo) :
    parentsFrom x = x :: getParents x.parent := by
  cases x <;> rfl

theorem getParents_some (x : SourceInfo) :
    getParents (some x) = x :: getParents x.parent := by
  cases x <;> rfl

theorem chainIds_some (x : SourceInfo) :
    chainIds (some x) = x.entity_id :: chainIds x.parent := by
  rw [chainIds, getParents_some, List.map_cons]
  rfl

theorem lookupState_some {env : Env} {t : String} {st : HState}
    (h : lookupState env t = some st) :
    st.entity_id = t ∧ st ∈ env.states ∧ lookupState env st.entity_id = some st := by
  have h1 : st.entity_id = t := by
    have := List.find?_some h
    simpa using this
  exact ⟨h1, List.mem_of_find?_eq_some h, by rw [h1]; exact h⟩

theorem mem_parentsFrom_length (i : SourceInfo) :
    ∀ x ∈ parentsFrom i, (parentsFrom x).length ≤ (parentsFrom i).length := by
  induction i with
  | root n e s a =>
    intro x hx
    simp only [parentsFrom, List.mem_singleton] at hx
    subst hx
    exact le_refl _
  | child p n e s a ihp =>
    intro x hx
    rw [parentsFrom] at hx
    rcases List.mem_cons.mp hx with h | h
    · subst h
      exact le_refl _
    · refine (ihp x h).trans ?_
      rw [parentsFrom]
      simp

theorem mem_getParents_length (o : Option SourceInfo) :
    ∀ x ∈ getParents o, (parentsFrom x).length ≤ (getParents o).length := by
  cases o with
  | none => intro x hx; simp [getParents] at hx
  | some i => exact mem_parentsFrom_length i

end Helpers

section Termination

theorem resolveMeasure_pos (env : Env) (state : HState) (parent : Option SourceInfo) :
    0 < resolveMeasure env state parent := by
  unfold resolveMeasure
  by_cases h : state.entity_id ∈ envDom env \ (chainIds parent).toFinset
  · have hpos : 0 < (envDom env \ (chainIds parent).toFinset).card :=
      Finset.card_pos.mpr ⟨_, h⟩
    rw [if_pos h]
    omega
  · rw [if_neg h]
    omega

theorem resolveMeasure_le_bound (env : Env) (state : HState) (parent : Option SourceInfo) :
    resolveMeasure env state parent ≤ resolveBound env := by
  unfold resolveMeasure resolveBound
  have h1 : (envDom env \ (chainIds parent).toFinset).card ≤ (envDom env).card :=
    Finset.card_le_card (Finset.sdiff_subset)
  split <;> omega

theorem resolveMeasure_lt (env : Env) (state childState : HState)
    (parent : Option SourceInfo) (info : SourceInfo)
    (hpar : info.parent = parent) (hid : info.entity_id = state.entity_id)
    (target : String)
    (hmem : (chainIds parent).contains target = false)
    (hlk : lookupState env target = some childState) :
    resolveMeasure env childState (some info) < resolveMeasure env state parent := by
  obtain ⟨hteq, htmem, -⟩ := lookupState_some hlk
  have hchain : chainIds (some info) = state.entity_id :: chainIds parent := by
    rw [chainIds_some, hpar, hid]
  have htD : target ∈ envDom env := by
    rw [← hteq]
    exact List.mem_toFinset.mpr (List.mem_map_of_mem _ htmem)
  have htC : target ∉ (chainIds parent).toFinset := by
    rw [List.mem_toFinset]
    simpa using hmem
  unfold resolveMeasure
  rw [hchain, List.toFinset_cons, Finset.sdiff_insert]
  by_cases hs : state.entity_id ∈ envDom env \ (chainIds parent).toFinset
  · have h1 := Finset.card_erase_of_mem hs
    have hpos : 0 < (envDom env \ (chainIds parent).toFinset).card :=
      Finset.card_pos.mpr ⟨_, hs⟩
    rw [if_pos hs]
    split <;> omega
  · have h1 : (envDom env \ (chainIds parent).toFinset).erase state.entity_id =
        envDom env \ (chainIds parent).toFinset :=
      Finset.erase_eq_of_not_mem hs
    have htDC : childState.entity_id ∈
        (envDom env \ (chainIds parent).toFinset).erase state.entity_id := by
      rw [h1, hteq]
      exact Finset.mem_sdiff.mpr ⟨htD, htC⟩
    rw [if_neg hs, h1, if_pos (h1 ▸ htDC)]
    omega

end Termination

section Stabilization

theorem resolveFuel_succ (n : Nat) (env : Env) (state : HState)
    (parent : Option SourceInfo) :
    resolveFuel (n + 1) env state parent =
      (if (get_sources state.attributes).isEmpty then
        [SourceInfo.mk parent state.name state.entity_id state.attributes.source
          (parentActiveB parent)]
      else
        (get_sources state.attributes).flatMap (fun source =>
          let info := SourceInfo.mk parent state.name state.entity_id (some source)
            (parentActiveB parent && (state.attributes.source == some source))
          match assocFind (mappingFor env state.entity_id) source with
          | none => [info]
          | some target =>
            if target = "" then [info]
            else if (chainIds parent).contains target then [info]
            else
              match lookupState env target with
              | none => [info]
              | some childState => resolveFuel n env childState (some info))) := rfl

theorem flatMap_congr_mem {α β : Type} {l : List α} {f g : α → List β}
    (h : ∀ a ∈ l, f a = g a) : l.flatMap f = l.flatMap g := by
  induction l with
  | nil => rfl
  | cons a t ih =>
    rw [List.flatMap_cons, List.flatMap_cons, h a (List.mem_cons_self a t),
      ih (fun x hx => h x (List.mem_cons_of_mem a hx))]

/-- Fuel irrelevance: any two fuels at least the termination measure produce
the same resolution. -/
theorem resolveFuel_stable (n : Nat) :
    ∀ (m : Nat) (env : Env) (state : HState) (parent : Option SourceInfo),
    resolveMeasure env state parent ≤ n → resolveMeasure env state parent ≤ m →
    resolveFuel n env state parent = resolveFuel m env state parent := by
  induction n using Nat.strong_induction_on with
  | _ n ih =>
    intro m env state parent hn hm
    have hpos := resolveMeasure_pos env state parent
    cases n with
    | zero => omega
    | succ n' =>
      cases m with
      | zero => omega
      | succ m' =>
        rw [resolveFuel_succ, resolveFuel_succ]
        split
        · rfl
        · refine flatMap_congr_mem (fun source hsrc => ?_)
          dsimp only
          cases hfind : assocFind (mappingFor env state.entity_id) source with
          | none => rfl
          | some target =>
            by_cases h0 : target = ""
            · subst h0
              simp
            · simp only [if_neg h0]
              cases hcont : (chainIds parent).contains target with
              | true => simp
              | false =>
                simp only [Bool.false_eq_true, if_false]
                cases hlk : lookupState env target with
                | none => rfl
                | some childState =>
                  have hlt := resolveMeasure_lt env state childState parent
                    (SourceInfo.mk parent state.name state.entity_id (some source)
                      (parentActiveB parent && (state.attributes.source == some source)))
                    (mk_parent _ _ _ _ _) (mk_entity_id _ _ _ _ _) target hcont hlk
                  exact ih n' (Nat.lt_succ_self n') m' env childState _
                    (by omega) (by omega)

/-- Resolution with the default fuel agrees with any sufficient fuel. -/
theorem getRootSources_eq_fuel (n : Nat) (env : Env) (state : HState)
    (parent : Option SourceInfo) (h : resolveBound env ≤ n) :
    resolveFuel n env state parent = getRootSources env state parent := by
  unfold getRootSources
  exact resolveFuel_stable n (resolveBound env) env state parent
    ((resolveMeasure_le_bound env state parent).trans h)
    (resolveMeasure_le_bound env state parent)

end Stabilization

section CycleSafety

/-- Every proper ancestor of a resolved entry is either an ancestor the call
started from or an entry whose wired target was recursed into. -/
theorem resolveFuel_parents_shape (n : Nat) :
    ∀ (env : Env) (state : HState) (parent : Option SourceInfo),
    ∀ j ∈ resolveFuel n env state parent,
    ∀ x ∈ getParents j.parent, x ∈ getParents parent ∨ recursedOK env x := by
  induction n with
  | zero =>
    intro env state parent j hj
    simp [resolveFuel] at hj
  | succ n ih =>
    intro env state parent j hj x hx
    rw [resolveFuel_succ] at hj
    split at hj
    · rw [List.mem_singleton] at hj
      subst hj
      rw [mk_parent] at hx
      exact Or.inl hx
    · obtain ⟨source, hsrc, hjf⟩ := List.mem_flatMap.mp hj
      dsimp only at hjf
      cases hfind : assocFind (mappingFor env state.entity_id) source with
      | none =>
        simp only [hfind] at hjf
        rw [List.mem_singleton] at hjf
        subst hjf
        rw [mk_parent] at hx
        exact Or.inl hx
      | some target =>
        simp only [hfind] at hjf
        by_cases h0 : target = ""
        · rw [if_pos h0, List.mem_singleton] at hjf
          subst hjf
          rw [mk_parent] at hx
          exact Or.inl hx
        · rw [if_neg h0] at hjf
          cases hcont : (chainIds parent).contains target with
          | true =>
            simp only [hcont, if_true] at hjf
            rw [List.mem_singleton] at hjf
            subst hjf
            rw [mk_parent] at hx
            exact Or.inl hx
          | false =>
            simp only [hcont, Bool.false_eq_true, if_false] at hjf
            cases hlk : lookupState env target with
            | none =>
              simp only [hlk] at hjf
              rw [List.mem_singleton] at hjf
              subst hjf
              rw [mk_parent] at hx
              exact Or.inl hx
            | some childState =>
              simp only [hlk] at hjf
              rcases ih env childState _ j hjf x hx with hx' | hok
              · rw [getParents_some, mk_parent, List.mem_cons] at hx'
                rcases hx' with hx' | hx'
                · subst hx'
                  refine Or.inr ⟨source, target, childState, mk_source _ _ _ _ _, ?_, h0, ?_, hlk⟩
                  · rw [mk_entity_id]
                    exact hfind
                  · rw [mk_parent]
                    exact hcont
                · exact Or.inl hx'
              · exact Or.inr hok

/-- C2: resolution terminates on every wiring map and snapshot set — the
fuel-indexed resolver is independent of the fuel once it reaches the bound
used by `getRootSources` (so the recursion never exhausts it) — and a source
whose wired target already appears on the entry's own ancestor chain becomes
a terminal leaf of the result: its entry is yielded as-is and no resolved
entry lies below it. -/
theorem c2_cycle_safety :
    (∀ (n : Nat) (env : Env) (state : HState) (parent : Option SourceInfo),
      resolveBound env ≤ n →
      resolveFuel n env state parent = getRootSources env state parent) ∧
    (∀ (env : Env) (state : HState) (parent : Option SourceInfo)
      (source target : String),
      source ∈ get_sources state.attributes →
      assocFind (mappingFor env state.entity_id) source = some target →
      target ∈ chainIds parent →
      (SourceInfo.mk parent state.name state.entity_id (some source)
          (parentActiveB parent && (state.attributes.source == some source)) ∈
        getRootSources env state parent ∧
       ∀ j ∈ getRootSources env state parent,
        SourceInfo.mk parent state.name state.entity_id (some source)
            (parentActiveB parent && (state.attributes.source == some source)) ∉
          getParents j.parent)) := by
  constructor
  · exact fun n env state parent h => getRootSources_eq_fuel n env state parent h
  · intro env state parent source target hsrc hfind htmem
    have hcont : (chainIds parent).contains target = true := by
      simpa using htmem
    have hne : ¬(get_sources state.attributes).isEmpty = true := by
      intro he
      rw [List.isEmpty_iff.mp he] at hsrc
      exact absurd hsrc (List.not_mem_nil source)
    have hbound : resolveBound env = (2 * (envDom env).card + 1) + 1 := by
      unfold resolveBound
      omega
    have hbranch :
        (let info := SourceInfo.mk parent state.name state.entity_id (some source)
          (parentActiveB parent && (state.attributes.source == some source))
        match assocFind (mappingFor env state.entity_id) source with
        | none => [info]
        | some target =>
          if target = "" then [info]
          else if (chainIds parent).contains target then [info]
          else
            match lookupState env target with
            | none => [info]
            | some childState =>
              resolveFuel (2 * (envDom env).card + 1) env childState (some info)) =
          [SourceInfo.mk parent state.name state.entity_id (some source)
            (parentActiveB parent && (state.attributes.source == some source))] := by
      dsimp only
      simp only [hfind]
      by_cases h0 : target = ""
      · rw [if_pos h0]
      · rw [if_neg h0]
        simp only [hcont, if_true]
    constructor
    · unfold getRootSources
      rw [hbound, resolveFuel_succ, if_neg hne]
      exact List.mem_flatMap.mpr ⟨source, hsrc, by rw [hbranch]; exact List.mem_singleton.mpr rfl⟩
    · intro j hj hmem
      rcases resolveFuel_parents_shape (resolveBound env) env state parent j hj _ hmem with hanc | hok
      · have hlen := mem_getParents_length parent _ hanc
        rw [parentsFrom_cons, mk_parent] at hlen
        simp at hlen
      · obtain ⟨s, t', c', hs, hfind', -, hcont', -⟩ := hok
        rw [mk_source] at hs
        rw [mk_entity_id] at hfind'
        rw [mk_parent] at hcont'
        have hss : s = source := by
          injection hs.symm
        subst hss
        rw [hfind] at hfind'
        have htt : t' = target := by
          injection hfind'.symm
        subst htt
        rw [hcont] at hcont'
        exact absurd hcont' (by simp)

/-- Witness for C2 at the spec's cyclic scenario (`stereo` and `tv` wired to
each other): extra fuel changes nothing, the cyclic edge's entry (`tv`'s
`HDMI 1`, wired back to `stereo` which is on `tv`'s ancestor chain) is in the
resolved list, and nothing was resolved below it. -/
theorem c2_cycle_safety_witness :
    (resolveFuel 50 envCyc stCyc none = getRootSources envCyc stCyc none) ∧
    cycLeaf ∈ getRootSources envCyc tvSt (some stereoInfo) ∧
    ∀ j ∈ getRootSources envCyc tvSt (some stereoInfo),
      cycLeaf ∉ getParents j.parent := by
  refine ⟨c2_cycle_safety.1 50 envCyc stCyc none (by decide), ?_, ?_⟩
  · exact (c2_cycle_safety.2 envCyc tvSt (some stereoInfo)
      "HDMI 1" "stereo" (by decide) (by decide) (by decide)).1
  · exact (c2_cycle_safety.2 envCyc tvSt (some stereoInfo)
      "HDMI 1" "stereo" (by decide) (by decide) (by decide)).2

end CycleSafety

section Anchoring

theorem resolveFuel_anchored (n : Nat) :
    ∀ (env : Env) (state : HState) (parent : Option SourceInfo),
    lookupState env state.entity_id = some state →
    (∀ a ∈ getParents parent, anchoredEntry env a) →
    ∀ info ∈ resolveFuel n env state parent,
      anchoredEntry env info ∧ ∀ a ∈ getParents info.parent, anchoredEntry env a := by
  induction n with
  | zero =>
    intro env state parent _ _ info hinfo
    simp [resolveFuel] at hinfo
  | succ n ih =>
    intro env state parent hanc hchain info hinfo
    rw [resolveFuel_succ] at hinfo
    split at hinfo
    · rw [List.mem_singleton] at hinfo
      subst hinfo
      refine ⟨⟨state, ?_, ?_, ?_⟩, ?_⟩
      · rw [mk_entity_id]
        exact hanc
      · rw [mk_entity_name]
      · rw [mk_active, mk_parent, mk_source]
        simp
      · rw [mk_parent]
        exact hchain
    · obtain ⟨source, hsrc, hbr⟩ := List.mem_flatMap.mp hinfo
      dsimp only at hbr
      have hloop : anchoredEntry env (SourceInfo.mk parent state.name state.entity_id
          (some source) (parentActiveB parent && (state.attributes.source == some source))) := by
        refine ⟨state, ?_, ?_, ?_⟩
        · rw [mk_entity_id]
          exact hanc
        · rw [mk_entity_name]
        · rw [mk_active, mk_parent, mk_source]
      have hleaf : anchoredEntry env (SourceInfo.mk parent state.name state.entity_id
            (some source) (parentActiveB parent && (state.attributes.source == some source))) ∧
          ∀ a ∈ getParents (SourceInfo.mk parent state.name state.entity_id
            (some source)
            (parentActiveB parent && (state.attributes.source == some source))).parent,
            anchoredEntry env a := by
        refine ⟨hloop, ?_⟩
        rw [mk_parent]
        exact hchain
      cases hfind : assocFind (mappingFor env state.entity_id) source with
      | none =>
        simp only [hfind] at hbr
        rw [List.mem_singleton] at hbr
        subst hbr
        exact hleaf
      | some target =>
        simp only [hfind] at hbr
        by_cases h0 : target = ""
        · rw [if_pos h0, List.mem_singleton] at hbr
          subst hbr
          exact hleaf
        · rw [if_neg h0] at hbr
          cases hcont : (chainIds parent).contains target with
          | true =>
            simp only [hcont, if_true] at hbr
            rw [List.mem_singleton] at hbr
            subst hbr
            exact hleaf
          | false =>
            simp only [hcont, Bool.false_eq_true, if_false] at hbr
            cases hlk : lookupState env target with
            | none =>
              simp only [hlk] at hbr
              rw [List.mem_singleton] at hbr
              subst hbr
              exact hleaf
            | some childState =>
              simp only [hlk] at hbr
              refine ih env childState _ (lookupState_some hlk).2.2 ?_ info hbr
              rw [getParents_some, mk_parent]
              intro a ha
              rcases List.mem_cons.mp ha with h | h
              · subst h
                exact hloop
              · exact hchain a h

theorem sinkLoop_anchored (env : Env) :
    ∀ (l : List (String × List (String × String))) {st : HState},
    sinkLoop env l = some st → lookupState env st.entity_id = some st := by
  intro l
  induction l with
  | nil => intro st h; simp [sinkLoop] at h
  | cons kv rest ih =>
    intro st h
    rw [sinkLoop] at h
    cases hlk : lookupState env kv.1 with
    | none =>
      simp only [hlk] at h
      exact ih h
    | some st' =>
      simp only [hlk] at h
      split at h
      · rw [Option.some_inj] at h
        subst h
        exact (lookupState_some hlk).2.2
      · exact ih h

theorem sink_entity_anchored (env : Env) {st : HState}
    (h : sink_entity env = some st) : lookupState env st.entity_id = some st := by
  unfold sink_entity at h
  cases hloop : sinkLoop env env.mapping with
  | some st' =>
    simp only [hloop, Option.some_inj] at h
    subst h
    exact sinkLoop_anchored env env.mapping hloop
  | none =>
    simp only [hloop] at h
    cases hmap : env.mapping with
    | nil =>
      simp only [hmap] at h
      exact absurd h (by simp)
    | cons kv rest =>
      simp only [hmap] at h
      exact (lookupState_some h).2.2

/-- Every entry of the rebuilt `_sources` list, and every ancestor on its
chain, is anchored to a snapshot. -/
theorem stackSources_anchored (env : Env) :
    ∀ info ∈ stackSources env,
      anchoredEntry env info ∧ ∀ a ∈ getParents info.parent, anchoredEntry env a := by
  intro info hinfo
  unfold stackSources at hinfo
  cases hsink : sink_entity env with
  | none =>
    rw [hsink] at hinfo
    exact absurd hinfo (List.not_mem_nil info)
  | some st =>
    rw [hsink] at hinfo
    exact resolveFuel_anchored (resolveBound env) env st none
      (sink_entity_anchored env hsink) (by intro a ha; simp [getParents] at ha)
      info hinfo

end Anchoring

/-- C1 amended: a resolved entry's `active` flag is: (the entry is the root
of its chain OR its parent entry is active) AND its own device's currently
selected source equals the entry's source name (trivially true for entries
of a device with no selectable sources, whose source field is that device's
current source).  The device's power status is not consulted, and the parent
gating is the one already folded into the parent's own `active` flag. -/
theorem c1_active_formula (env : Env) (info : SourceInfo)
    (h : info ∈ stackSources env) :
    info.active = (parentActiveB info.parent &&
      ((lookupState env info.entity_id).elim false
        (fun st => st.attributes.source == info.source))) := by
  obtain ⟨⟨st', hlk, -, hact⟩, -⟩ := stackSources_anchored env info h
  rw [hlk]
  exact hact

/-- Witness for C1's amended formula on a concrete entry of `envC1a`. -/
theorem c1_active_formula_witness :
    (SourceInfo.root "d" "d" (some "X") true).active =
      (parentActiveB (SourceInfo.root "d" "d" (some "X") true).parent &&
        ((lookupState envC1a (SourceInfo.root "d" "d" (some "X") true).entity_id).elim false
          (fun st => st.attributes.source == (SourceInfo.root "d" "d" (some "X") true).source))) :=
  c1_active_formula envC1a (SourceInfo.root "d" "d" (some "X") true) (by decide)

/-- C5: the composite status is standby when the sink entity is missing or
its status is in the off-set; otherwise the sink's own status when no active
resolved entry exists; otherwise standby when the active entry's device
status is in the off-set; otherwise that device's status.  (Stated for
environments whose snapshot ids are non-empty, as the configuration schema
guarantees; the code's falsy-id guard is then inert.) -/
theorem c5_composite_status (env : Env)
    (hne : ∀ s ∈ env.states, s.entity_id ≠ "") :
    compositeState env = claimCompositeState env := by
  unfold compositeState claimCompositeState source_entity
  cases hsink : sink_entity env with
  | none => rfl
  | some sk =>
    cases hoff : OFF_STATES.contains sk.state with
    | true =>
      have hoff' : sk.state ∈ OFF_STATES := by simpa using hoff
      simp [hoff']
    | false =>
      have hoff' : sk.state ∉ OFF_STATES := by simpa using hoff
      simp only [if_neg hoff']
      cases hfa : (stackSources env).find? (fun x => x.active) with
      | none => rfl
      | some info =>
        have hmem := List.mem_of_find?_eq_some hfa
        obtain ⟨⟨st', hlk, -, -⟩, -⟩ := stackSources_anchored env info hmem
        have hid : ¬info.entity_id = "" := by
          obtain ⟨heq, hmem', -⟩ := lookupState_some hlk
          rw [← heq]
          exact hne st' hmem'
        simp only [if_neg hid, hlk]

/-- Witness for C5 at the spec's cycle scenario environment. -/
theorem c5_composite_status_witness :
    compositeState envCyc = claimCompositeState envCyc :=
  c5_composite_status envCyc (by decide)

section ActivePath

theorem parentActiveB_some (i : SourceInfo) : parentActiveB (some i) = i.active := rfl

/-- Below an inactive parent every resolved entry is inactive. -/
theorem resolveFuel_inactive (n : Nat) :
    ∀ (env : Env) (state : HState) (parent : Option SourceInfo),
    parentActiveB parent = false →
    ∀ j ∈ resolveFuel n env state parent, j.active = false := by
  induction n with
  | zero =>
    intro env state parent _ j hj
    simp [resolveFuel] at hj
  | succ n ih =>
    intro env state parent hp j hj
    rw [resolveFuel_succ] at hj
    split at hj
    · rw [List.mem_singleton] at hj
      subst hj
      rw [mk_active]
      exact hp
    · obtain ⟨source, hsrc, hbr⟩ := List.mem_flatMap.mp hj
      dsimp only at hbr
      have hleafa : (SourceInfo.mk parent state.name state.entity_id (some source)
          (parentActiveB parent && (state.attributes.source == some source))).active = false := by
        rw [mk_active, hp, Bool.false_and]
      cases hfind : assocFind (mappingFor env state.entity_id) source with
      | none =>
        simp only [hfind] at hbr
        rw [List.mem_singleton] at hbr
        subst hbr
        exact hleafa
      | some target =>
        simp only [hfind] at hbr
        by_cases h0 : target = ""
        · rw [if_pos h0, List.mem_singleton] at hbr
          subst hbr
          exact hleafa
        · rw [if_neg h0] at hbr
          cases hcont : (chainIds parent).contains target with
          | true =>
            simp only [hcont, if_true] at hbr
            rw [List.mem_singleton] at hbr
            subst hbr
            exact hleafa
          | false =>
            simp only [hcont, Bool.false_eq_true, if_false] at hbr
            cases hlk : lookupState env target with
            | none =>
              simp only [hlk] at hbr
              rw [List.mem_singleton] at hbr
              subst hbr
              exact hleafa
            | some childState =>
              simp only [hlk] at hbr
              refine ih env childState _ ?_ j hbr
              rw [parentActiveB_some, mk_active, hp, Bool.false_and]

theorem countP_singleton_le_one (i : SourceInfo) :
    [i].countP (fun x => x.active) ≤ 1 := by
  simp only [List.countP_cons, List.countP_nil]
  split <;> omega

theorem countP_flatMap_le_one {l : List String} {f : String → List SourceInfo}
    (cur : Option String) (hdup : l.Nodup)
    (h0 : ∀ s ∈ l, cur ≠ some s → (f s).countP (fun i => i.active) = 0)
    (h1 : ∀ s ∈ l, (f s).countP (fun i => i.active) ≤ 1) :
    (l.flatMap f).countP (fun i => i.active) ≤ 1 := by
  induction l with
  | nil => simp
  | cons s rest ih =>
    rw [List.flatMap_cons, List.countP_append]
    by_cases hc : cur = some s
    · have hrest : (rest.flatMap f).countP (fun i => i.active) = 0 := by
        rw [List.countP_eq_zero]
        intro j hj
        obtain ⟨s', hs', hj'⟩ := List.mem_flatMap.mp hj
        have hne : cur ≠ some s' := by
          intro he
          rw [hc] at he
          have hss : s = s' := by injection he
          subst hss
          exact (List.nodup_cons.mp hdup).1 hs'
        have hz := h0 s' (List.mem_cons_of_mem _ hs') hne
        rw [List.countP_eq_zero] at hz
        exact hz j hj'
      have hhead := h1 s (List.mem_cons_self s rest)
      omega
    · have h00 := h0 s (List.mem_cons_self s rest) hc
      have htail := ih (List.nodup_cons.mp hdup).2
        (fun x hx => h0 x (List.mem_cons_of_mem _ hx))
        (fun x hx => h1 x (List.mem_cons_of_mem _ hx))
      omega

/-- With duplicate-free effective source lists, at most one resolved entry is
active. -/
theorem resolveFuel_active_count (n : Nat) :
    ∀ (env : Env) (state : HState) (parent : Option SourceInfo),
    (∀ s ∈ env.states, (get_sources s.attributes).Nodup) →
    (get_sources state.attributes).Nodup →
    (resolveFuel n env state parent).countP (fun i => i.active) ≤ 1 := by
  induction n with
  | zero =>
    intro env state parent _ _
    simp [resolveFuel]
  | succ n ih =>
    intro env state parent H hsn
    cases hp : parentActiveB parent with
    | false =>
      have hz : (resolveFuel (n + 1) env state parent).countP (fun i => i.active) = 0 := by
        rw [List.countP_eq_zero]
        intro j hj
        simp [resolveFuel_inactive (n + 1) env state parent hp j hj]
      omega
    | true =>
      rw [resolveFuel_succ]
      split
      · simp only [List.countP_cons, List.countP_nil]
        split <;> omega
      · refine countP_flatMap_le_one state.attributes.source hsn ?_ ?_
        · intro s _ hcur
          have hbeq : (state.attributes.source == some s) = false := by
            simpa using hcur
          have hleafa : (SourceInfo.mk parent state.name state.entity_id (some s)
              (parentActiveB parent && (state.attributes.source == some s))).active = false := by
            rw [mk_active, hbeq, Bool.and_false]
          dsimp only
          cases hfind : assocFind (mappingFor env state.entity_id) s with
          | none => simp [hleafa]
          | some target =>
            by_cases h0 : target = ""
            · simp [if_pos h0, hleafa]
            · simp only [if_neg h0]
              cases hcont : (chainIds parent).contains target with
              | true => simp [hleafa]
              | false =>
                simp only [Bool.false_eq_true, if_false]
                cases hlk : lookupState env target with
                | none => simp [hleafa]
                | some childState =>
                  rw [List.countP_eq_zero]
                  intro j hj
                  have hz := resolveFuel_inactive n env childState _
                    (by rw [parentActiveB_some, mk_active, hbeq, Bool.and_false]) j hj
                  simp [hz]
        · intro s _
          dsimp only
          cases hfind : assocFind (mappingFor env state.entity_id) s with
          | none => exact countP_singleton_le_one _
          | some target =>
            by_cases h0 : target = ""
            · simp only [if_pos h0]
              exact countP_singleton_le_one _
            · simp only [if_neg h0]
              cases hcont : (chainIds parent).contains target with
              | true =>
                simp only [hcont, if_true]
                exact countP_singleton_le_one _
              | false =>
                simp only [Bool.false_eq_true, if_false]
                cases hlk : lookupState env target with
                | none => exact countP_singleton_le_one _
                | some childState =>
                  have hmemc : childState ∈ env.states := (lookupState_some hlk).2.1
                  exact ih env childState _ H (H childState hmemc)

/-- Along an anchored chain, an active entry's ancestors are all active. -/
theorem active_ancestors (env : Env) :
    ∀ (info : SourceInfo),
    anchoredEntry env info → (∀ a ∈ getParents info.parent, anchoredEntry env a) →
    info.active = true → ∀ a ∈ getParents info.parent, a.active = true := by
  intro info
  induction info with
  | root n e s a =>
    intro _ _ _ x hx
    simp [SourceInfo.parent, getParents] at hx
  | child p n e s a ihp =>
    intro hanc hchain hact x hx
    obtain ⟨st', hlk, hname, hform⟩ := hanc
    have hpact : p.active = true := by
      rw [hact] at hform
      have h1 := hform.symm
      rw [Bool.and_eq_true] at h1
      exact h1.1
    have hx' : x ∈ p :: getParents p.parent := by
      rw [← getParents_some]
      exact hx
    rcases List.mem_cons.mp hx' with h | h
    · subst h
      exact hpact
    · have hpanch : anchoredEntry env p := by
        refine hchain p ?_
        show p ∈ getParents (some p)
        rw [getParents_some]
        exact List.mem_cons_self p _
      have hpchain : ∀ a ∈ getParents p.parent, anchoredEntry env a := by
        intro a ha
        refine hchain a ?_
        show a ∈ getParents (some p)
        rw [getParents_some]
        exact List.mem_cons_of_mem _ ha
      exact ihp hpanch hpchain hpact x h

end ActivePath

/-- C3 amended: when every device's effective source list is duplicate-free,
the active entries form a single connected path — at most one element of the
flattened resolved source list is active, and every ancestor of an active
entry is active. -/
theorem c3_active_path (env : Env)
    (hnd : ∀ s ∈ env.states, (get_sources s.attributes).Nodup) :
    (stackSources env).countP (fun i => i.active) ≤ 1 ∧
    ∀ info ∈ stackSources env, info.active = true →
      ∀ a ∈ getParents info.parent, a.active = true := by
  constructor
  · unfold stackSources
    cases hsink : sink_entity env with
    | none => simp
    | some st =>
      have hst : st ∈ env.states :=
        (lookupState_some (sink_entity_anchored env hsink)).2.1
      exact resolveFuel_active_count (resolveBound env) env st none hnd (hnd st hst)
  · intro info hinfo hact
    obtain ⟨h1, h2⟩ := stackSources_anchored env info hinfo
    exact active_ancestors env info h1 h2 hact

/-- Witness for C3's amended property at the spec's cycle scenario. -/
theorem c3_active_path_witness :
    (stackSources envCyc).countP (fun i => i.active) ≤ 1 ∧
    ∀ info ∈ stackSources envCyc, info.active = true →
      ∀ a ∈ getParents info.parent, a.active = true :=
  c3_active_path envCyc (by decide)

/-- C9 amended: the composite source list is exactly the flattened resolver
output — the entries actually yielded (terminal devices and
unmapped/cyclic/unresolvable sources), not every tree node — rendered as
qualified labels, as a lexicographically sorted permutation. -/
theorem c9_source_list (env : Env) :
    (compositeSourceList env).Perm ((stackSources env).map SourceInfo.name) ∧
    List.Sorted (fun a b : String => a ≤ b) (compositeSourceList env) := by
  constructor
  · exact List.mergeSort_perm _ _
  · exact List.sorted_mergeSort' _

section SwitchCommands

theorem collectSwitches_ok (env : Env) :
    ∀ (l : List SourceInfo),
    (∀ x ∈ l, (lookupState env x.entity_id).isSome) →
    collectSwitches env l = Except.ok (l.flatMap (blockOf env)) := by
  intro l
  induction l with
  | nil => intro _; rfl
  | cons x rest ih =>
    intro h
    have hx := h x (List.mem_cons_self x rest)
    cases hlk : lookupState env x.entity_id with
    | none =>
      rw [hlk] at hx
      simp at hx
    | some st =>
      rw [collectSwitches]
      unfold switch_source
      simp only [hlk]
      rw [ih (fun y hy => h y (List.mem_cons_of_mem _ hy))]
      rw [List.flatMap_cons]
      unfold blockOf
      simp only [hlk]

theorem chain_lookup_isSome (env : Env) (info : SourceInfo)
    (h : info ∈ stackSources env) :
    ∀ x ∈ getParents (some info), (lookupState env x.entity_id).isSome := by
  obtain ⟨hP, hchain⟩ := stackSources_anchored env info h
  intro x hx
  rw [getParents_some] at hx
  rcases List.mem_cons.mp hx with heq | hx'
  · subst heq
    obtain ⟨st', hlk, -, -⟩ := hP
    rw [hlk]
    rfl
  · obtain ⟨st', hlk, -, -⟩ := hchain x hx'
    rw [hlk]
    rfl

theorem selectSourceCmds_eq_flatMap (env : Env) (t : String) (info : SourceInfo)
    (hfind : (stackSources env).find? (fun x => x.name == t) = some info) :
    selectSourceCmds env t =
      Except.ok ((getParents (some info)).flatMap (blockOf env)) := by
  unfold selectSourceCmds
  simp only [hfind]
  exact collectSwitches_ok env _
    (chain_lookup_isSome env info (List.mem_of_find?_eq_some hfind))

/-- C6 amended: for a target found in the resolved list, the switch call
gathers, over the chain in target-to-root order (the entry itself followed
by its ancestors, as produced by `_get_parents`), per hop: a power-on
command iff the device's live status is exactly `"off"`, then a
select-source command iff its live current source differs from the hop's
source — all conditions read against the pre-call snapshot set, the hops
being run concurrently by `asyncio.gather`, not sequentially. -/
theorem c6_switch_commands (env : Env) (t : String) (info : SourceInfo)
    (hfind : (stackSources env).find? (fun x => x.name == t) = some info) :
    selectSourceCmds env t =
      Except.ok ((getParents (some info)).flatMap (blockOf env)) :=
  selectSourceCmds_eq_flatMap env t info hfind

/-- Witness for C6's amended property at `envC6`. -/
theorem c6_switch_commands_witness :
    selectSourceCmds envC6 "x" =
      Except.ok ((getParents (some (SourceInfo.child
        (SourceInfo.root "s" "s" (some "A") false) "x" "x" none false))).flatMap
        (blockOf envC6)) :=
  c6_switch_commands envC6 "x"
    (SourceInfo.child (SourceInfo.root "s" "s" (some "A") false) "x" "x" none false)
    (by decide)

end SwitchCommands

section Idempotence

theorem updCmd_entity_id (c : Cmd) (st : HState) :
    (updCmd c st).entity_id = st.entity_id := by
  cases c <;> simp only [updCmd] <;> split <;> rfl

theorem updCmd_of_ne (c : Cmd) (st : HState) (h : st.entity_id ≠ cmdEntity c) :
    updCmd c st = st := by
  cases c <;> simp_all [updCmd, cmdEntity]

theorem lookupState_applyCmd (env : Env) (c : Cmd) (e : String) :
    lookupState (applyCmd env c) e = (lookupState env e).map (updCmd c) := by
  unfold lookupState applyCmd
  rw [List.find?_map]
  have hp : ((fun st => st.entity_id == e) ∘ updCmd c) = (fun st : HState => st.entity_id == e) := by
    funext st
    simp [Function.comp, updCmd_entity_id]
  rw [hp]

theorem lookupState_applyCmds (cmds : List Cmd) :
    ∀ (env : Env) (e : String),
    lookupState (applyCmds env cmds) e =
      (lookupState env e).map (fun st => cmds.foldl (fun s c => updCmd c s) st) := by
  induction cmds with
  | nil =>
    intro env e
    simp [applyCmds]
  | cons c cs ih =>
    intro env e
    show lookupState (applyCmds (applyCmd env c) cs) e = _
    rw [ih, lookupState_applyCmd]
    cases lookupState env e <;> simp

theorem foldl_updCmd_entity_id (cmds : List Cmd) :
    ∀ (st : HState), (cmds.foldl (fun s c => updCmd c s) st).entity_id = st.entity_id := by
  induction cmds with
  | nil => intro st; rfl
  | cons c cs ih => intro st; rw [List.foldl_cons, ih, updCmd_entity_id]

theorem foldl_updCmd_skip (cmds : List Cmd) :
    ∀ (st : HState), (∀ c ∈ cmds, cmdEntity c ≠ st.entity_id) →
    cmds.foldl (fun s c => updCmd c s) st = st := by
  induction cmds with
  | nil => intro st _; rfl
  | cons c cs ih =>
    intro st h
    rw [List.foldl_cons, updCmd_of_ne c st (fun he => h c (List.mem_cons_self c cs) he.symm)]
    exact ih st (fun c' hc' => h c' (List.mem_cons_of_mem _ hc'))

theorem blockOf_entity (env : Env) (x : SourceInfo) :
    ∀ c ∈ blockOf env x, cmdEntity c = x.entity_id := by
  intro c hc
  unfold blockOf at hc
  cases hlk : lookupState env x.entity_id with
  | none =>
    simp only [hlk] at hc
    exact absurd hc (List.not_mem_nil c)
  | some st =>
    simp only [hlk, List.mem_append] at hc
    rcases hc with h | h <;> split at h <;> simp_all [cmdEntity]

/-- Folding the whole command batch over a hop's snapshot is the same as
folding just that hop's block, when no other hop addresses the same
entity. -/
theorem foldl_flatMap_single (env : Env) (st : HState) :
    ∀ (chain : List SourceInfo) (x : SourceInfo), x ∈ chain →
    (chain.map (fun y => y.entity_id)).Nodup → x.entity_id = st.entity_id →
    (chain.flatMap (blockOf env)).foldl (fun s c => updCmd c s) st =
      (blockOf env x).foldl (fun s c => updCmd c s) st := by
  intro chain
  induction chain with
  | nil => intro x hx; simp at hx
  | cons y ys ih =>
    intro x hx hnd hxe
    rw [List.map_cons, List.nodup_cons] at hnd
    rw [List.flatMap_cons, List.foldl_append]
    rcases List.mem_cons.mp hx with heq | hx'
    · subst heq
      have hrest : ∀ c ∈ ys.flatMap (blockOf env), cmdEntity c ≠
          ((blockOf env x).foldl (fun s c => updCmd c s) st).entity_id := by
        intro c hc
        obtain ⟨y', hy', hc'⟩ := List.mem_flatMap.mp hc
        rw [blockOf_entity env y' c hc', foldl_updCmd_entity_id, ← hxe]
        intro he
        exact hnd.1 (he ▸ List.mem_map_of_mem (fun z => z.entity_id) hy')
      exact foldl_updCmd_skip _ _ hrest
    · have hyne : y.entity_id ≠ st.entity_id := by
        rw [← hxe]
        intro he
        exact hnd.1 (he.symm ▸ List.mem_map_of_mem (fun z => z.entity_id) hx')
      have hskip : (blockOf env y).foldl (fun s c => updCmd c s) st = st :=
        foldl_updCmd_skip _ _ (fun c hc => by rw [blockOf_entity env y c hc]; exact hyne)
      rw [hskip]
      exact ih x hx' hnd.2 hxe

/-- Effect of one hop's block on that hop's snapshot: afterwards the device
is not `"off"` and its current source is the hop's source. -/
theorem block_fold_effect (env : Env) (x : SourceInfo) (st : HState)
    (hlk : lookupState env x.entity_id = some st) :
    ((blockOf env x).foldl (fun s c => updCmd c s) st).attributes.source = x.source ∧
    ((blockOf env x).foldl (fun s c => updCmd c s) st).state ≠ "off" := by
  have hid : st.entity_id = x.entity_id := (lookupState_some hlk).1
  unfold blockOf
  rw [hlk]
  cases hoffb : st.state == "off" with
  | true =>
    have hoff : st.state = "off" := by simpa using hoffb
    cases hdiff : st.attributes.source != x.source with
    | true =>
      simp [updCmd, hid, hoff, hdiff]
    | false =>
      have hsrc : st.attributes.source = x.source := by
        simpa using hdiff
      simp [updCmd, hid, hoff, hdiff, hsrc]
  | false =>
    have hoff : st.state ≠ "off" := by simpa using hoffb
    cases hdiff : st.attributes.source != x.source with
    | true =>
      simp [updCmd, hid, hoffb, hdiff, hoff]
    | false =>
      have hsrc : st.attributes.source = x.source := by
        simpa using hdiff
      simp [updCmd, hid, hoffb, hdiff, hsrc, hoff]

/-- After a successful switch, each hop's device is on (or was never exactly
off) and shows the hop's source. -/
theorem apply_chain_effect (env : Env) (chain : List SourceInfo)
    (hnd : (chain.map (fun y => y.entity_id)).Nodup)
    (x : SourceInfo) (hx : x ∈ chain) (st : HState)
    (hlk : lookupState env x.entity_id = some st) :
    ∃ st', lookupState (applyCmds env (chain.flatMap (blockOf env))) x.entity_id = some st' ∧
      st'.attributes.source = x.source ∧ st'.state ≠ "off" := by
  rw [lookupState_applyCmds, hlk]
  refine ⟨_, rfl, ?_⟩
  have hfold := foldl_flatMap_single env st chain x hx hnd (lookupState_some hlk).1.symm
  have heff := block_fold_effect env x st hlk
  rw [← hfold] at heff
  exact heff

theorem blockOf_eq_nil (env : Env) (x : SourceInfo) (st : HState)
    (hlk : lookupState env x.entity_id = some st)
    (h1 : (st.state == "off") = false)
    (h2 : (st.attributes.source != x.source) = false) :
    blockOf env x = [] := by
  unfold blockOf
  simp only [hlk]
  simp [h1, h2]

/-- C7 amended: a second `select_source` with the same target issues zero
commands, provided the first call succeeded, its effects are the only state
change, the refreshed tree resolves the target through a chain with the same
(entity, source) hops, and no entity occurs twice on the chain. -/
theorem c7_idempotent_switch (env : Env) (t : String) (cmds : List Cmd)
    (info info' : SourceInfo)
    (h1 : (stackSources env).find? (fun x => x.name == t) = some info)
    (h2 : selectSourceCmds env t = Except.ok cmds)
    (h3 : (stackSources (applyCmds env cmds)).find? (fun x => x.name == t) = some info')
    (h4 : chainPairs info' = chainPairs info)
    (h5 : ((getParents (some info)).map (fun x => x.entity_id)).Nodup) :
    selectSourceCmds (applyCmds env cmds) t = Except.ok [] := by
  have hc6 := selectSourceCmds_eq_flatMap env t info h1
  rw [h2] at hc6
  have hcmds : cmds = (getParents (some info)).flatMap (blockOf env) := by
    rw [← Except.ok.injEq (ε := String)]
    exact hc6
  have hsome := chain_lookup_isSome env info (List.mem_of_find?_eq_some h1)
  have hpairmem : ∀ x' ∈ getParents (some info'),
      ∃ x ∈ getParents (some info), x.entity_id = x'.entity_id ∧ x.source = x'.source := by
    intro x' hx'
    have hp : (x'.entity_id, x'.source) ∈ chainPairs info := by
      rw [← h4]
      exact List.mem_map_of_mem _ hx'
    obtain ⟨x, hx, hxe⟩ := List.mem_map.mp hp
    exact ⟨x, hx, congrArg Prod.fst hxe, congrArg Prod.snd hxe⟩
  have hblock : ∀ x' ∈ getParents (some info'),
      blockOf (applyCmds env cmds) x' = [] := by
    intro x' hx'
    obtain ⟨x, hx, hxid, hxsrc⟩ := hpairmem x' hx'
    have hxs := hsome x hx
    cases hlk : lookupState env x.entity_id with
    | none => rw [hlk] at hxs; simp at hxs
    | some st =>
      obtain ⟨st', hlk', hsrc', hoff'⟩ := apply_chain_effect env
        (getParents (some info)) h5 x hx st hlk
      rw [← hcmds] at hlk'
      refine blockOf_eq_nil _ x' st' ?_ ?_ ?_
      · rw [← hxid]
        exact hlk'
      · simpa using hoff'
      · rw [hsrc', hxsrc]
        simp
  have hsome' : ∀ x' ∈ getParents (some info'),
      (lookupState (applyCmds env cmds) x'.entity_id).isSome := by
    intro x' hx'
    obtain ⟨x, hx, hxid, -⟩ := hpairmem x' hx'
    have hxs := hsome x hx
    cases hlk : lookupState env x.entity_id with
    | none => rw [hlk] at hxs; simp at hxs
    | some st =>
      rw [← hxid, lookupState_applyCmds, hlk]
      rfl
  unfold selectSourceCmds
  simp only [h3]
  rw [collectSwitches_ok _ _ hsome']
  rw [List.flatMap_eq_nil_iff.mpr hblock]

/-- Witness for C7's amended property: after switching `envC7b` to `x`
(select-source `A` on `s`), an identical second switch issues nothing. -/
theorem c7_idempotent_switch_witness :
    selectSourceCmds (applyCmds envC7b [Cmd.selectCmd "s" (some "A")]) "x" =
      Except.ok [] :=
  c7_idempotent_switch envC7b "x" [Cmd.selectCmd "s" (some "A")]
    (SourceInfo.child (SourceInfo.root "s" "s" (some "A") false) "x" "x" none false)
    (SourceInfo.child (SourceInfo.root "s" "s" (some "A") true) "x" "x" none true)
    (by decide) (by rfl) (by decide) (by decide) (by decide)

end Idempotence

end MediaStack
